import Mathlib

/-!
Shallow embedding of `src/index.ts` of the actionnetwork-ical service.

Modelling conventions:
* Date-time strings (`start_date`, `end_date`) are modelled by their parsed
  absolute instants, as integer milliseconds since the epoch (the code runs
  `new Date(s)` / `toISOString()` round-trips in a UTC environment, and
  `setHours(getHours() + 2)` on a UTC clock advances the instant by exactly
  7 200 000 ms, with day rollover handled by the Date object).
* The JavaScript falsiness test `!event.end_date` is modelled by an
  `Option` field being `none` (a missing or empty upstream end date).
* The upstream HTTP exchange of one feed is modelled by the sequence of
  responses the provider returns to the successive page requests: each is
  either a parsed page or an error (network failure, or a body whose JSON
  parse / `_embedded["osdi:events"]` access throws).
* `Promise.all` is modelled with an explicit completion-time assignment for
  the per-feed tasks: it resolves with the results in argument order when
  every task succeeds, and rejects with the error of the earliest-completing
  failed task.
-/

set_option autoImplicit false

namespace ActionNetworkICal

/-- An absolute instant, in milliseconds since the Unix epoch. -/
abbrev Timestamp := Int

/-- The `location` sub-record of an upstream event (only the field the code
reads). -/
structure EventLocation where
  venue : String
  deriving Repr, DecidableEq

/-- The fields of an upstream `ActionNetworkEvent` that the pipeline reads.
`location` is `Option` because the upstream payload is dynamic: the code
accesses `event.location.venue` without checking, and an absent sub-record
makes that access throw. -/
structure ActionNetworkEvent where
  start_date : Timestamp
  end_date : Option Timestamp
  title : String
  description : String
  location : Option EventLocation
  deriving Repr, DecidableEq

/-- Two hours in milliseconds. -/
def twoHoursMs : Int := 7200000

/-- First half of the `forEach` body in `generateICalForFeeds`: if
`event.end_date` is missing, the code writes `start + 2 hours` back into the
raw record (`event.end_date = startDate.toISOString()` after
`setHours(getHours() + 2)`); otherwise the record is untouched. -/
def fillEndDate (e : ActionNetworkEvent) : ActionNetworkEvent :=
  match e.end_date with
  | none => { e with end_date := some (e.start_date + twoHoursMs) }
  | some _ => e

/-- The end instant the calendar entry receives: the raw end when present,
else start + 2 hours. -/
def resolvedEnd (e : ActionNetworkEvent) : Timestamp :=
  match e.end_date with
  | none => e.start_date + twoHoursMs
  | some t => t

/-- The argument record of `calendar.createEvent`. -/
structure CalEvent where
  start : Timestamp
  end_ : Timestamp
  summary : String
  description : String
  location : String
  deriving Repr, DecidableEq

/-- One iteration of the `forEach` body: fill the missing end date (a
mutation of the raw record), then build the `createEvent` argument.
Reading `event.location.venue` on an absent `location` throws, which is the
`Except.error` branch; the raw record has already been mutated at that
point. The result carries the post-iteration raw record alongside the
created calendar event. -/
def normalizeStep (e : ActionNetworkEvent) :
    Except String (ActionNetworkEvent × CalEvent) :=
  match (fillEndDate e).location with
  | none => .error "TypeError: Cannot read properties of undefined (reading 'venue')"
  | some loc =>
      .ok (fillEndDate e,
           { start := (fillEndDate e).start_date
             end_ := resolvedEnd e
             summary := (fillEndDate e).title
             description := (fillEndDate e).description
             location := loc.venue })

/-- The whole `forEach` over the flattened event list: a thrown exception in
the body aborts the iteration and propagates, so no calendar is produced. -/
def buildCalEvents : List ActionNetworkEvent → Except String (List CalEvent)
  | [] => .ok []
  | e :: rest => do
      let (_, ce) ← normalizeStep e
      let ces ← buildCalEvents rest
      pure (ce :: ces)

/-- One parsed upstream page: the `_embedded["osdi:events"]` batch and the
optional `_links.next.href`. -/
structure UpstreamPage where
  events : List ActionNetworkEvent
  next : Option String
  deriving Repr, DecidableEq

/-- One feed's upstream exchange: the sequence of responses the provider
returns to the successive page requests. An `Except.error` element is a
request on which the fetch fails (network failure, unparseable body, or a
body — e.g. of a non-success response — without the expected
`_embedded["osdi:events"]` shape, whose field access throws). If the
fetcher asks for a page beyond the end of the sequence, that request itself
fails. -/
abbrev UpstreamFeed := List (Except String UpstreamPage)

/-- Embedding of `fetchAllEventsForCalendar`: the `while (hasNextPage)` loop. Issues one
request per loop iteration, appends the page's batch to the accumulator,
follows `_links.next` until it is absent. Returns the accumulated events
(or the propagated error) together with the number of requests issued.
A thrown error discards the pages accumulated so far. -/
def fetchAllEventsForCalendar : UpstreamFeed → Except String (List ActionNetworkEvent) × Nat
  | [] => (.error "TypeError: fetch failed", 1)
  | .error msg :: _ => (.error msg, 1)
  | .ok page :: rest =>
      match page.next with
      | none => (.ok page.events, 1)
      | some _ =>
          ((fetchAllEventsForCalendar rest).1.map (page.events ++ ·),
           (fetchAllEventsForCalendar rest).2 + 1)

/-- The indices (in argument order) and errors of the failed tasks of a
`Promise.all` argument list, the index counting from `i`. -/
def errorsFrom {α : Type} (i : Nat) : List (Except String α) → List (Nat × String)
  | [] => []
  | .ok _ :: rest => errorsFrom (i + 1) rest
  | .error e :: rest => (i, e) :: errorsFrom (i + 1) rest

/-- Among the failed tasks, the one completing earliest under the
completion-time assignment `ct` (ties broken towards the earlier index, as
the runtime settles same-tick rejections in argument order). -/
def earliestFailure (ct : Nat → Nat) : List (Nat × String) → Option (Nat × String)
  | [] => none
  | f :: rest =>
      match earliestFailure ct rest with
      | none => some f
      | some g => if ct g.1 < ct f.1 then some g else some f

/-- The resolved values of an all-successful task list. -/
def collectOks {α : Type} : List (Except String α) → Except String (List α)
  | [] => .ok []
  | .error e :: _ => .error e
  | .ok v :: rest => (collectOks rest).map (v :: ·)

/-- Modelled from the spec (external collaborator, the JS runtime):
`Promise.all` resolves with the results in argument order when every task
succeeds — regardless of the completion times `ct` — and rejects with the
error of the earliest-completing failed task. -/
def promiseAll {α : Type} (ct : Nat → Nat) (tasks : List (Except String α)) :
    Except String (List α) :=
  match earliestFailure ct (errorsFrom 0 tasks) with
  | some f => .error f.2
  | none => collectOks tasks

/-- The first component of one feed's fetch: its result, error or event
list. -/
def fetchResult (upstream : String → UpstreamFeed) (f : String) :
    Except String (List ActionNetworkEvent) :=
  (fetchAllEventsForCalendar (upstream f)).1

/-- Total number of upstream requests issued for a feed selection (all
fetches run to completion; there is no cancellation). -/
def totalRequests (upstream : String → UpstreamFeed) (feeds : List String) : Nat :=
  (feeds.map (fun f => (fetchAllEventsForCalendar (upstream f)).2)).sum

/-- Embedding of `const flattened = allEvents.flat()` after
`await Promise.all(calendarNames.map(fetchAllEventsForCalendar))`. -/
def flattenedEvents (upstream : String → UpstreamFeed) (ct : Nat → Nat)
    (feeds : List String) : Except String (List ActionNetworkEvent) :=
  (promiseAll ct (feeds.map (fetchResult upstream))).map List.flatten

/-- JavaScript `Array.prototype.join(sep)` over character lists. -/
def joinWithChar (sep : Char) : List (List Char) → List Char
  | [] => []
  | [w] => w
  | w :: ws => w ++ sep :: joinWithChar sep ws

/-- JavaScript `String.prototype.split(sep)` for a one-character separator:
every maximal separator-free run becomes an element, empty runs included. -/
def splitOnChar (sep : Char) : List Char → List (List Char)
  | [] => [[]]
  | c :: rest =>
      match splitOnChar sep rest with
      | [] => [[c]]
      | w :: ws => if c = sep then [] :: w :: ws else (c :: w) :: ws

/-- Embedding of `word.charAt(0).toUpperCase() + word.slice(1).toLowerCase()` (ASCII
case mapping; the identifiers come from environment-variable names). -/
def titleCaseChars : List Char → List Char
  | [] => []
  | c :: rest => c.toUpper :: rest.map Char.toLower

/-- The default calendar name:
`Events for ${calendarNames.join(" ").split(" ").map(titleCase).join(" ")}`. -/
def defaultCalendarName (calendarNames : List String) : String :=
  "Events for " ++ String.mk (joinWithChar ' '
    ((splitOnChar ' ' (joinWithChar ' ' (calendarNames.map String.data))).map
      titleCaseChars))

/-- Embedding of `overrideCalendarName ? overrideCalendarName : ...` — the override is
used when present and truthy (a present empty string is falsy). -/
def deriveCalendarName (calendarNames : List String)
    (overrideCalendarName : Option String) : String :=
  match overrideCalendarName with
  | some n => if n = "" then defaultCalendarName calendarNames else n
  | none => defaultCalendarName calendarNames

/-- The in-memory calendar document: `ical({ name })` plus its created
events. -/
structure Calendar where
  name : String
  events : List CalEvent
  deriving Repr, DecidableEq

/-- Embedding of `generateICalForFeeds`: fetch all feeds concurrently, flatten in feed
order, derive the name, then run the normalizing `forEach`. Also reports
the number of upstream requests issued. -/
def generateICalForFeeds (upstream : String → UpstreamFeed) (ct : Nat → Nat)
    (calendarNames : List String) (overrideCalendarName : Option String) :
    Except String Calendar × Nat :=
  ( do
      let flattened ← flattenedEvents upstream ct calendarNames
      let events ← buildCalEvents flattened
      pure { name := deriveCalendarName calendarNames overrideCalendarName
             events := events },
    totalRequests upstream calendarNames )

/-- The credential registry `API_KEYS` in environment order: feed
identifier (prefix already stripped) paired with its token. -/
abbrev Registry := List (String × String)

/-- Embedding of `API_KEYS[feed]`: first binding of the identifier, if any. -/
def lookupKey (registry : Registry) (feed : String) : Option String :=
  (registry.find? (fun p => p.1 = feed)).map Prod.snd

/-- Embedding of `!API_KEYS[feed]`: the guard is falsy when the identifier is absent or
its token is the empty string. -/
def keyMissing (registry : Registry) (feed : String) : Bool :=
  match lookupKey registry feed with
  | none => true
  | some t => t = ""

/-- The validation loop of the `/events` handler: the first identifier in
selection order that fails the `API_KEYS[feed]` check, if any. -/
def findInvalidFeed (registry : Registry) : List String → Option String
  | [] => none
  | f :: rest =>
      if keyMissing registry f then some f else findInvalidFeed registry rest

/-- The `/events` handler's outcome. -/
inductive EventsResponse where
  | clientError (status : Nat) (body : String)
  | serverError (body : String)
  | calendarOk (cal : Calendar)
  deriving Repr, DecidableEq

/-- The `/events` handler: reject when no `feed` parameter is supplied,
reject on the first unconfigured identifier (before any fetch — the
returned count of upstream requests is 0 there), otherwise build the
calendar; an exception escaping `generateICalForFeeds` becomes a server
error. -/
def eventsHandler (registry : Registry) (upstream : String → UpstreamFeed)
    (ct : Nat → Nat) (feedsParam : Option (List String))
    (nameParam : Option String) : EventsResponse × Nat :=
  match feedsParam with
  | none => (.clientError 400 "No feed query parameters provided.", 0)
  | some feeds =>
      match findInvalidFeed registry feeds with
      | some f =>
          (.clientError 400 ("Feed " ++ f ++ " is not configured in API keys."), 0)
      | none =>
          match generateICalForFeeds upstream ct feeds nameParam with
          | (.error e, n) => (.serverError e, n)
          | (.ok cal, n) => (.calendarOk cal, n)

/-- The lines of the `/directory` body: `Object.keys(API_KEYS).map(key => "- " + key)`. -/
def directoryLines (registry : Registry) : List String :=
  registry.map (fun p => "- " ++ p.1)

/-- The `/directory` response body: the lines joined with `"\n"`. -/
def directoryBody (registry : Registry) : String :=
  String.mk (joinWithChar (Char.ofNat 10) ((directoryLines registry).map String.data))

theorem fillEndDate_end_date (e : ActionNetworkEvent) :
    (fillEndDate e).end_date = some (resolvedEnd e) := by
  cases h : e.end_date <;> simp [fillEndDate, resolvedEnd, h]

@[simp] theorem fillEndDate_start_date (e : ActionNetworkEvent) :
    (fillEndDate e).start_date = e.start_date := by
  cases h : e.end_date <;> simp [fillEndDate, h]

@[simp] theorem fillEndDate_title (e : ActionNetworkEvent) :
    (fillEndDate e).title = e.title := by
  cases h : e.end_date <;> simp [fillEndDate, h]

@[simp] theorem fillEndDate_description (e : ActionNetworkEvent) :
    (fillEndDate e).description = e.description := by
  cases h : e.end_date <;> simp [fillEndDate, h]

@[simp] theorem fillEndDate_location (e : ActionNetworkEvent) :
    (fillEndDate e).location = e.location := by
  cases h : e.end_date <;> simp [fillEndDate, h]

instance {ε α : Type} [DecidableEq ε] [DecidableEq α] : DecidableEq (Except ε α)
  | .error a, .error b => decidable_of_iff (a = b) (by simp)
  | .error _, .ok _ => .isFalse (by simp)
  | .ok _, .error _ => .isFalse (by simp)
  | .ok a, .ok b => decidable_of_iff (a = b) (by simp)

theorem normalizeStep_eq_ok {e e' : ActionNetworkEvent} {ce : CalEvent}
    (h : normalizeStep e = .ok (e', ce)) :
    e' = fillEndDate e ∧ ce.start = e.start_date ∧ ce.end_ = resolvedEnd e := by
  cases hl : e.location with
  | none => simp [normalizeStep, fillEndDate_location, hl] at h
  | some loc =>
      simp only [normalizeStep, fillEndDate_location, hl, fillEndDate_start_date,
        fillEndDate_title, fillEndDate_description, Except.ok.injEq,
        Prod.mk.injEq] at h
      refine ⟨h.1.symm, ?_, ?_⟩ <;> rw [← h.2]

theorem normalizeStep_location_none {e : ActionNetworkEvent}
    (h : e.location = none) :
    normalizeStep e =
      .error "TypeError: Cannot read properties of undefined (reading 'venue')" := by
  unfold normalizeStep
  simp [h]

/-- The sample instant of the spec: 2024-06-01T10:00:00Z, in epoch ms. -/
def sampleStartMs : Int := 1717236000000

/-- A raw event with a missing end time (and the spec's sample start). -/
def evNoEnd : ActionNetworkEvent :=
  { start_date := sampleStartMs
    end_date := none
    title := "March"
    description := "A march"
    location := some { venue := "City Hall" } }

/-- A raw event with a present end time. -/
def evWithEnd : ActionNetworkEvent :=
  { start_date := sampleStartMs
    end_date := some 1717250000000
    title := "Rally"
    description := "A rally"
    location := some { venue := "Plaza" } }

/-- C1: a missing end time is synthesized as start + exactly two hours, a
present end time passes through unchanged, and the calendar entry's end is
exactly this resolved end. -/
theorem C1_end_time_normalization (e : ActionNetworkEvent) :
    (e.end_date = none → resolvedEnd e = e.start_date + twoHoursMs) ∧
    (∀ t, e.end_date = some t → resolvedEnd e = t) ∧
    (∀ e' ce, normalizeStep e = .ok (e', ce) → ce.end_ = resolvedEnd e) := by
  refine ⟨fun h => by simp [resolvedEnd, h], fun t h => by simp [resolvedEnd, h],
    fun e' ce h => (normalizeStep_eq_ok h).2.2⟩

theorem C1_end_time_normalization_witness :
    resolvedEnd evNoEnd = 1717243200000 ∧ resolvedEnd evWithEnd = 1717250000000 :=
  ⟨by rw [(C1_end_time_normalization evNoEnd).1 rfl]; decide,
   (C1_end_time_normalization evWithEnd).2.1 1717250000000 rfl⟩

/-- A raw event whose upstream end time equals its start time. -/
def evEqualEnds : ActionNetworkEvent :=
  { start_date := sampleStartMs
    end_date := some sampleStartMs
    title := "Standup"
    description := "Zero-length"
    location := some { venue := "Office" } }

/-- The calendar entry the pipeline produces for `evEqualEnds`. -/
def ceEqualEnds : CalEvent :=
  { start := sampleStartMs
    end_ := sampleStartMs
    summary := "Standup"
    description := "Zero-length"
    location := "Office" }

/-- C7 counterexample: an upstream event whose present end time equals its
start time yields a normalized event whose end is not strictly after its
start — the pipeline never validates a present end time. -/
theorem C7_counterexample :
    normalizeStep evEqualEnds = .ok (evEqualEnds, ceEqualEnds) ∧
    ¬ ceEqualEnds.start < ceEqualEnds.end_ := by
  constructor
  · rfl
  · decide

/-- C7 (amended): every normalized event carries an end instant; it is
strictly after the start whenever the raw end time was absent (the
synthesized case), while a present raw end time is copied through
unvalidated. -/
theorem C7_end_after_start (e e' : ActionNetworkEvent) (ce : CalEvent)
    (h : normalizeStep e = .ok (e', ce)) :
    (e.end_date = none → ce.start < ce.end_) ∧
    (∀ t, e.end_date = some t → ce.end_ = t) := by
  obtain ⟨-, hs, he⟩ := normalizeStep_eq_ok h
  constructor
  · intro hnone
    rw [hs, he]
    simp [resolvedEnd, hnone, twoHoursMs]
  · intro t ht
    rw [he]
    simp [resolvedEnd, ht]

/-- The record `evNoEnd` after the end-date fill. -/
def evNoEndFilled : ActionNetworkEvent :=
  { evNoEnd with end_date := some 1717243200000 }

/-- The calendar entry the pipeline produces for `evNoEnd`. -/
def ceNoEnd : CalEvent :=
  { start := 1717236000000
    end_ := 1717243200000
    summary := "March"
    description := "A march"
    location := "City Hall" }

theorem C7_end_after_start_witness : ceNoEnd.start < ceNoEnd.end_ :=
  (C7_end_after_start evNoEnd evNoEndFilled ceNoEnd (by decide)).1 rfl

/-- C8 counterexample: normalizing a raw event with a missing end time
writes the synthesized end back into the raw record — the record after the
iteration differs from the input record, so normalization does not leave
the raw input unmodified. -/
theorem C8_counterexample :
    normalizeStep evNoEnd = .ok (evNoEndFilled, ceNoEnd) ∧
    evNoEndFilled ≠ evNoEnd := by
  constructor
  · decide
  · decide

/-- C8 (amended): normalization is modelled by a pure function (no I/O); it
leaves a raw event with a present end time fully unmodified, and for a raw
event with a missing end time it leaves every field except the end time
unmodified, writing `start + 2 hours` into the end-time field. -/
theorem C8_purity_frame (e : ActionNetworkEvent) :
    (∀ t, e.end_date = some t → fillEndDate e = e) ∧
    (fillEndDate e).start_date = e.start_date ∧
    (fillEndDate e).title = e.title ∧
    (fillEndDate e).description = e.description ∧
    (fillEndDate e).location = e.location ∧
    (e.end_date = none → (fillEndDate e).end_date = some (e.start_date + twoHoursMs)) := by
  refine ⟨fun t ht => ?_, by simp, by simp, by simp, by simp, fun h => ?_⟩
  · simp [fillEndDate, ht]
  · simp [fillEndDate, h]

theorem C8_purity_frame_witness :
    fillEndDate evWithEnd = evWithEnd ∧
    (fillEndDate evNoEnd).end_date = some (sampleStartMs + twoHoursMs) :=
  ⟨(C8_purity_frame evWithEnd).1 1717250000000 rfl,
   (C8_purity_frame evNoEnd).2.2.2.2.2 rfl⟩

/-- A feed's page chain is well formed when it is non-empty, every page but
the last carries a next-page link, and the last carries none. -/
def wellFormedChain : List UpstreamPage → Bool
  | [] => false
  | [p] => p.next.isNone
  | p :: rest => p.next.isSome && wellFormedChain rest

theorem fetchAll_cons_some (page : UpstreamPage) (nxt : String)
    (hn : page.next = some nxt) (L : UpstreamFeed) :
    fetchAllEventsForCalendar (.ok page :: L) =
      ((fetchAllEventsForCalendar L).1.map (page.events ++ ·),
       (fetchAllEventsForCalendar L).2 + 1) := by
  simp only [fetchAllEventsForCalendar, hn]

/-- C2: over a feed paginated across N pages (the first N - 1 carrying a
next-page link and the last carrying none), the fetcher issues exactly N
requests and returns the concatenation of the N page batches in page
order. -/
theorem C2_pagination (pages : List UpstreamPage)
    (h : wellFormedChain pages = true) :
    fetchAllEventsForCalendar (pages.map Except.ok) =
      (.ok (pages.map UpstreamPage.events).flatten, pages.length) := by
  induction pages with
  | nil => simp [wellFormedChain] at h
  | cons p rest ih =>
      cases rest with
      | nil =>
          simp only [wellFormedChain, Option.isNone_iff_eq_none] at h
          simp [fetchAllEventsForCalendar, h]
      | cons q rest' =>
          simp only [wellFormedChain, Bool.and_eq_true, Option.isSome_iff_exists] at h
          obtain ⟨⟨nxt, hn⟩, h2⟩ := h
          have ih' := ih (by simpa [wellFormedChain] using h2)
          rw [List.map_cons, fetchAll_cons_some p nxt hn, ih']
          simp [Except.map]

/-- A concrete two-page chain. -/
def pagesTwo : List UpstreamPage :=
  [ { events := [evWithEnd], next := some "https://actionnetwork.org/api/v2/events?page=2" },
    { events := [evNoEnd], next := none } ]

theorem C2_pagination_witness :
    fetchAllEventsForCalendar (pagesTwo.map Except.ok) =
      (.ok [evWithEnd, evNoEnd], 2) := by
  have := C2_pagination pagesTwo (by decide)
  simpa [pagesTwo] using this

theorem errorsFrom_map_ok {α β : Type} (g : β → α) (i : Nat) (l : List β) :
    errorsFrom i (l.map (fun x => Except.ok (g x))) = [] := by
  induction l generalizing i with
  | nil => rfl
  | cons x xs ih => simp [errorsFrom, ih]

theorem collectOks_map_ok {α β : Type} (g : β → α) (l : List β) :
    collectOks (l.map (fun x => Except.ok (g x))) = .ok (l.map g) := by
  induction l with
  | nil => rfl
  | cons x xs ih => simp [collectOks, ih, Except.map]

theorem promiseAll_map_ok {α β : Type} (ct : Nat → Nat) (g : β → α) (l : List β) :
    promiseAll ct (l.map (fun x => Except.ok (g x))) = .ok (l.map g) := by
  simp [promiseAll, errorsFrom_map_ok, collectOks_map_ok, earliestFailure]

/-- C3: whatever the completion times of the concurrent per-feed fetches,
when every fetch succeeds the flattened sequence is the per-feed sequences
concatenated in the order the feed identifiers were supplied (each feed's
internal order preserved), and the resulting calendar is built from exactly
that sequence. -/
theorem C3_feed_order (upstream : String → UpstreamFeed) (ct : Nat → Nat)
    (feeds : List String) (ov : Option String)
    (evs : String → List ActionNetworkEvent)
    (hok : ∀ f ∈ feeds, fetchResult upstream f = .ok (evs f)) :
    flattenedEvents upstream ct feeds = .ok (feeds.map evs).flatten ∧
    (generateICalForFeeds upstream ct feeds ov).1 =
      (buildCalEvents (feeds.map evs).flatten).map
        (fun ces => { name := deriveCalendarName feeds ov, events := ces }) := by
  have hmap : feeds.map (fetchResult upstream) =
      feeds.map (fun f => Except.ok (evs f)) := List.map_congr_left hok
  have hflat : flattenedEvents upstream ct feeds = .ok (feeds.map evs).flatten := by
    rw [flattenedEvents, hmap, promiseAll_map_ok]
    rfl
  refine ⟨hflat, ?_⟩
  cases hb : buildCalEvents ((feeds.map evs).flatten) with
  | error e =>
      simp [generateICalForFeeds, hflat, hb, Except.map, Bind.bind, Except.bind]
  | ok ces =>
      simp [generateICalForFeeds, hflat, hb, Except.map, Bind.bind, Except.bind,
        Pure.pure, Except.pure]

/-- A two-feed upstream: TEAM_A and TEAM_B each answer with one page. -/
def upTwoFeeds : String → UpstreamFeed := fun f =>
  if f = "TEAM_A" then [.ok { events := [evWithEnd], next := none }]
  else [.ok { events := [evNoEnd], next := none }]

/-- The per-feed event sequences of `upTwoFeeds`. -/
def evsTwoFeeds : String → List ActionNetworkEvent := fun f =>
  if f = "TEAM_A" then [evWithEnd] else [evNoEnd]

/-- A completion-time assignment under which the second feed finishes
first. -/
def ctSwapped : Nat → Nat := fun i => 10 - i

theorem C3_feed_order_witness :
    flattenedEvents upTwoFeeds ctSwapped ["TEAM_A", "TEAM_B"] =
      .ok [evWithEnd, evNoEnd] :=
  ((C3_feed_order upTwoFeeds ctSwapped ["TEAM_A", "TEAM_B"] none evsTwoFeeds
      (by decide)).1).trans (by decide)

theorem findInvalidFeed_mem {registry : Registry} {feeds : List String}
    {f : String} (h : findInvalidFeed registry feeds = some f) :
    f ∈ feeds ∧ keyMissing registry f = true := by
  induction feeds with
  | nil => simp [findInvalidFeed] at h
  | cons a rest ih =>
      by_cases ha : keyMissing registry a
      · simp [findInvalidFeed, ha] at h
        subst h
        exact ⟨List.mem_cons_self a rest, ha⟩
      · simp [findInvalidFeed, ha] at h
        exact ⟨List.mem_cons_of_mem a (ih h).1, (ih h).2⟩

theorem findInvalidFeed_isSome {registry : Registry} {feeds : List String}
    {bad : String} (hmem : bad ∈ feeds) (hbad : keyMissing registry bad = true) :
    (findInvalidFeed registry feeds).isSome = true := by
  induction feeds with
  | nil => cases hmem
  | cons a rest ih =>
      by_cases ha : keyMissing registry a
      · simp [findInvalidFeed, ha]
      · rcases List.mem_cons.mp hmem with rfl | hm
        · rw [hbad] at ha
          exact absurd rfl ha
        · simp [findInvalidFeed, ha, ih hm]

/-- C4: a feed selection containing an identifier with no registry entry is
rejected with status 400; the rejection message names the first identifier
of the selection that fails the registry check, and zero upstream requests
are issued. -/
theorem C4_unknown_feed_rejected (registry : Registry)
    (upstream : String → UpstreamFeed) (ct : Nat → Nat) (feeds : List String)
    (ov : Option String) (bad : String) (hmem : bad ∈ feeds)
    (habs : lookupKey registry bad = none) :
    (findInvalidFeed registry feeds).isSome = true ∧
    ∀ f, findInvalidFeed registry feeds = some f →
      f ∈ feeds ∧ keyMissing registry f = true ∧
      eventsHandler registry upstream ct (some feeds) ov =
        (.clientError 400 ("Feed " ++ f ++ " is not configured in API keys."), 0) := by
  have hbad : keyMissing registry bad = true := by simp [keyMissing, habs]
  refine ⟨findInvalidFeed_isSome hmem hbad, fun f hf => ?_⟩
  obtain ⟨hfm, hfk⟩ := findInvalidFeed_mem hf
  exact ⟨hfm, hfk, by simp [eventsHandler, hf]⟩

/-- A registry with a single configured feed. -/
def regOne : Registry := [("TEAM_A", "key-a")]

theorem C4_unknown_feed_rejected_witness :
    eventsHandler regOne upTwoFeeds ctSwapped (some ["TEAM_A", "NOPE"]) none =
      (.clientError 400 "Feed NOPE is not configured in API keys.", 0) :=
  (((C4_unknown_feed_rejected regOne upTwoFeeds ctSwapped ["TEAM_A", "NOPE"]
      none "NOPE" (by decide) (by decide)).2 "NOPE" (by decide)).2.2).trans
    (by decide)

theorem buildCalEvents_cons_error {a : ActionNetworkEvent}
    {rest : List ActionNetworkEvent} {msg : String}
    (h : normalizeStep a = .error msg) :
    buildCalEvents (a :: rest) = .error msg := by
  simp [buildCalEvents, h, Bind.bind, Except.bind]

theorem buildCalEvents_cons_ok {a : ActionNetworkEvent}
    {rest : List ActionNetworkEvent} {p : ActionNetworkEvent × CalEvent}
    (h : normalizeStep a = .ok p) :
    buildCalEvents (a :: rest) = (buildCalEvents rest).map (p.2 :: ·) := by
  obtain ⟨e', ce⟩ := p
  cases hb : buildCalEvents rest <;>
    simp [buildCalEvents, h, hb, Bind.bind, Except.bind, Except.map,
      Pure.pure, Except.pure]

theorem buildCalEvents_not_ok {evs : List ActionNetworkEvent}
    {e : ActionNetworkEvent} (he : e ∈ evs) (hloc : e.location = none) :
    ∀ ces, buildCalEvents evs ≠ .ok ces := by
  induction evs with
  | nil => cases he
  | cons a rest ih =>
      intro ces hok
      rcases List.mem_cons.mp he with rfl | hm
      · rw [buildCalEvents_cons_error (normalizeStep_location_none hloc)] at hok
        cases hok
      · cases hstep : normalizeStep a with
        | error msg =>
            rw [buildCalEvents_cons_error hstep] at hok
            cases hok
        | ok p =>
            rw [buildCalEvents_cons_ok hstep] at hok
            cases hb : buildCalEvents rest with
            | error msg => rw [hb] at hok; cases hok
            | ok ces' => exact ih hm ces' hb

/-- C10: if any fetched raw event lacks its location sub-record, building
the calendar fails for the entire request — the venue access throws, so no
calendar document is produced and no event is silently skipped. -/
theorem C10_missing_location_fails (upstream : String → UpstreamFeed)
    (ct : Nat → Nat) (feeds : List String) (ov : Option String)
    (evs : List ActionNetworkEvent) (e : ActionNetworkEvent)
    (hflat : flattenedEvents upstream ct feeds = .ok evs)
    (he : e ∈ evs) (hloc : e.location = none) :
    ∀ cal, (generateICalForFeeds upstream ct feeds ov).1 ≠ .ok cal := by
  intro cal hok
  cases hbe : buildCalEvents evs with
  | error msg =>
      simp [generateICalForFeeds, hflat, hbe, Bind.bind, Except.bind] at hok
  | ok ces => exact buildCalEvents_not_ok he hloc ces hbe

/-- A raw event whose `location` sub-record is absent. -/
def evNoLoc : ActionNetworkEvent :=
  { start_date := sampleStartMs
    end_date := some 1717250000000
    title := "Mystery"
    description := "No location"
    location := none }

/-- An upstream where the only page carries the location-less event. -/
def upNoLoc : String → UpstreamFeed :=
  fun _ => [.ok { events := [evNoLoc], next := none }]

/-- An arbitrary calendar value to instantiate the conclusion at. -/
def calDummy : Calendar := { name := "x", events := [] }

theorem C10_missing_location_fails_witness :
    (generateICalForFeeds upNoLoc ctSwapped ["TEAM_A"] none).1 ≠ .ok calDummy :=
  C10_missing_location_fails upNoLoc ctSwapped ["TEAM_A"] none [evNoLoc] evNoLoc
    (by decide) (by decide) rfl calDummy

theorem earliestFailure_mem {ct : Nat → Nat} {l : List (Nat × String)}
    {g : Nat × String} (h : earliestFailure ct l = some g) : g ∈ l := by
  induction l with
  | nil => simp [earliestFailure] at h
  | cons f rest ih =>
      simp only [earliestFailure] at h
      cases he : earliestFailure ct rest with
      | none =>
          rw [he] at h
          injection h with h
          subst h
          exact List.mem_cons_self f rest
      | some g' =>
          rw [he] at h
          dsimp only at h
          by_cases hlt : ct g'.1 < ct f.1
          · rw [if_pos hlt] at h
            injection h with h
            subst h
            exact List.mem_cons_of_mem f (ih he)
          · rw [if_neg hlt] at h
            injection h with h
            subst h
            exact List.mem_cons_self f rest

theorem earliestFailure_isSome {ct : Nat → Nat} {l : List (Nat × String)}
    (h : l ≠ []) : (earliestFailure ct l).isSome = true := by
  cases l with
  | nil => exact absurd rfl h
  | cons f rest =>
      simp only [earliestFailure]
      cases earliestFailure ct rest with
      | none => rfl
      | some g =>
          dsimp only
          by_cases hlt : ct g.1 < ct f.1
          · rw [if_pos hlt]; rfl
          · rw [if_neg hlt]; rfl

theorem errorsFrom_mem {α : Type} {tasks : List (Except String α)}
    {p : Nat × String} :
    ∀ {i : Nat}, p ∈ errorsFrom i tasks → Except.error p.2 ∈ tasks := by
  induction tasks with
  | nil => intro i h; simp [errorsFrom] at h
  | cons t rest ih =>
      intro i h
      cases t with
      | ok v =>
          simp only [errorsFrom] at h
          exact List.mem_cons_of_mem _ (ih h)
      | error e =>
          simp only [errorsFrom, List.mem_cons] at h
          rcases h with rfl | h
          · exact List.mem_cons_self _ rest
          · exact List.mem_cons_of_mem _ (ih h)

theorem errorsFrom_ne_nil {α : Type} {tasks : List (Except String α)}
    {e : String} (h : Except.error e ∈ tasks) :
    ∀ i, errorsFrom i tasks ≠ [] := by
  induction tasks with
  | nil => cases h
  | cons t rest ih =>
      intro i
      cases t with
      | error e' => simp [errorsFrom]
      | ok v =>
          have hr : Except.error e ∈ rest := by
            rcases List.mem_cons.mp h with heq | hm
            · cases heq
            · exact hm
          simp only [errorsFrom]
          exact ih hr (i + 1)

theorem collectOks_error_mem {α : Type} {tasks : List (Except String α)}
    {msg : String} (h : collectOks tasks = .error msg) :
    Except.error msg ∈ tasks := by
  induction tasks with
  | nil => simp [collectOks] at h
  | cons t rest ih =>
      cases t with
      | error e =>
          simp only [collectOks, Except.error.injEq] at h
          subst h
          exact List.mem_cons_self _ rest
      | ok v =>
          simp only [collectOks] at h
          cases hr : collectOks rest with
          | error m =>
              rw [hr] at h
              simp only [Except.map, Except.error.injEq] at h
              subst h
              exact List.mem_cons_of_mem _ (ih hr)
          | ok vs =>
              rw [hr] at h
              simp [Except.map] at h

theorem promiseAll_not_ok {α : Type} {ct : Nat → Nat}
    {tasks : List (Except String α)} {e : String}
    (h : Except.error e ∈ tasks) :
    ∀ vs, promiseAll ct tasks ≠ .ok vs := by
  intro vs hok
  unfold promiseAll at hok
  cases hef : earliestFailure ct (errorsFrom 0 tasks) with
  | none =>
      have hs := @earliestFailure_isSome ct _ (errorsFrom_ne_nil h 0)
      rw [hef] at hs
      cases hs
  | some g =>
      rw [hef] at hok
      cases hok

theorem promiseAll_error_mem {α : Type} {ct : Nat → Nat}
    {tasks : List (Except String α)} {msg : String}
    (h : promiseAll ct tasks = .error msg) :
    Except.error msg ∈ tasks := by
  unfold promiseAll at h
  cases hef : earliestFailure ct (errorsFrom 0 tasks) with
  | none =>
      rw [hef] at h
      exact collectOks_error_mem h
  | some g =>
      rw [hef] at h
      injection h with h
      subst h
      exact errorsFrom_mem (earliestFailure_mem hef)

/-- The upstream fetch errors of a feed selection, in selection order. -/
def fetchErrors (upstream : String → UpstreamFeed) (feeds : List String) :
    List String :=
  feeds.filterMap (fun f =>
    match fetchResult upstream f with
    | .error e => some e
    | .ok _ => none)

/-- C5 (amended): if any feed's fetch fails (network failure, or a response
whose payload cannot be parsed into the expected page shape), the entire
aggregate operation fails — no partial calendar is ever returned, and pages
already fetched for the failing feed are discarded — and the propagated
error is one of the feeds' raw upstream errors, passed through verbatim
rather than tagged with the failing feed's identifier. -/
theorem C5_fetch_error_aborts (upstream : String → UpstreamFeed)
    (ct : Nat → Nat) (feeds : List String) (ov : Option String)
    (f : String) (e : String) (hmem : f ∈ feeds)
    (herr : fetchResult upstream f = .error e) :
    (∀ cal, (generateICalForFeeds upstream ct feeds ov).1 ≠ .ok cal) ∧
    (∀ msg, (generateICalForFeeds upstream ct feeds ov).1 = .error msg →
      msg ∈ fetchErrors upstream feeds) := by
  have htask : Except.error e ∈ feeds.map (fetchResult upstream) :=
    List.mem_map.mpr ⟨f, hmem, herr⟩
  cases hpa : promiseAll ct (feeds.map (fetchResult upstream)) with
  | ok vs => exact absurd hpa (promiseAll_not_ok htask vs)
  | error m =>
      have hflat : flattenedEvents upstream ct feeds = .error m := by
        rw [flattenedEvents, hpa]
        rfl
      have hgen : (generateICalForFeeds upstream ct feeds ov).1 = .error m := by
        simp [generateICalForFeeds, hflat, Bind.bind, Except.bind]
      constructor
      · intro cal hok
        rw [hgen] at hok
        cases hok
      · intro msg hmsg
        rw [hgen] at hmsg
        injection hmsg with hmsg
        subst hmsg
        obtain ⟨f', hf'mem, hf'⟩ := List.mem_map.mp (promiseAll_error_mem hpa)
        exact List.mem_filterMap.mpr ⟨f', hf'mem, by rw [hf']⟩

/-- An upstream on which every first page request fails with a JSON parse
error (as a non-success or malformed response does in the code). -/
def upUntagged : String → UpstreamFeed :=
  fun _ => [.error "SyntaxError: Unexpected token"]

/-- C5 counterexample: two different failing feed identifiers propagate the
very same error value — the raw upstream error — so the propagated
upstream-fetch error is not tagged with the identifier of the failing
feed. -/
theorem C5_counterexample :
    (generateICalForFeeds upUntagged ctSwapped ["TEAM_B"] none).1 =
      .error "SyntaxError: Unexpected token" ∧
    (generateICalForFeeds upUntagged ctSwapped ["TEAM_C"] none).1 =
      .error "SyntaxError: Unexpected token" := by
  constructor <;> decide

theorem C5_fetch_error_aborts_witness :
    (generateICalForFeeds upUntagged ctSwapped ["TEAM_B"] none).1 ≠ .ok calDummy ∧
    "SyntaxError: Unexpected token" ∈ fetchErrors upUntagged ["TEAM_B"] :=
  ⟨(C5_fetch_error_aborts upUntagged ctSwapped ["TEAM_B"] none "TEAM_B"
      "SyntaxError: Unexpected token" (by decide) (by decide)).1 calDummy,
   (C5_fetch_error_aborts upUntagged ctSwapped ["TEAM_B"] none "TEAM_B"
      "SyntaxError: Unexpected token" (by decide) (by decide)).2
      "SyntaxError: Unexpected token" (by decide)⟩

theorem splitOnChar_ne_nil (sep : Char) (l : List Char) :
    splitOnChar sep l ≠ [] := by
  cases l with
  | nil => simp [splitOnChar]
  | cons c rest =>
      simp only [splitOnChar]
      cases h : splitOnChar sep rest with
      | nil => simp
      | cons w ws => by_cases hc : c = sep <;> simp [hc]

theorem splitOnChar_sepFree {sep : Char} {w : List Char} (h : sep ∉ w) :
    splitOnChar sep w = [w] := by
  induction w with
  | nil => rfl
  | cons c rest ih =>
      have hc : c ≠ sep := fun e => h (e ▸ List.mem_cons_self c rest)
      have hr : sep ∉ rest := fun m => h (List.mem_cons_of_mem c m)
      simp only [splitOnChar, ih hr]
      rw [if_neg hc]

theorem splitOnChar_append {sep : Char} {w l : List Char} (h : sep ∉ w) :
    splitOnChar sep (w ++ sep :: l) = w :: splitOnChar sep l := by
  induction w with
  | nil =>
      simp only [List.nil_append, splitOnChar]
      cases hs : splitOnChar sep l with
      | nil => exact absurd hs (splitOnChar_ne_nil sep l)
      | cons w' ws => simp
  | cons c rest ih =>
      have hc : c ≠ sep := fun e => h (e ▸ List.mem_cons_self c rest)
      have hr : sep ∉ rest := fun m => h (List.mem_cons_of_mem c m)
      simp only [List.cons_append, splitOnChar, List.append_eq, ih hr]
      rw [if_neg hc]

theorem splitOnChar_joinWithChar {sep : Char} {ws : List (List Char)}
    (hne : ws ≠ []) (h : ∀ w ∈ ws, sep ∉ w) :
    splitOnChar sep (joinWithChar sep ws) = ws := by
  induction ws with
  | nil => exact absurd rfl hne
  | cons w rest ih =>
      cases rest with
      | nil => exact splitOnChar_sepFree (h w (List.mem_cons_self w []))
      | cons x rest' =>
          have hj : joinWithChar sep (w :: x :: rest') =
              w ++ sep :: joinWithChar sep (x :: rest') := rfl
          rw [hj, splitOnChar_append (h w (List.mem_cons_self w (x :: rest'))),
            ih (by simp) (fun u hu => h u (List.mem_cons_of_mem w hu))]

/-- C6 counterexample: for the feed selection ["TEAM_A", "TEAM_B"] with no
name override the derived calendar name is "Events for Team_a Team_b" — the
remainder of each token is lowercased, so it is not the claimed
"Events for Team_A Team_B". -/
theorem C6_counterexample :
    deriveCalendarName ["TEAM_A", "TEAM_B"] none = "Events for Team_a Team_b" ∧
    deriveCalendarName ["TEAM_A", "TEAM_B"] none ≠ "Events for Team_A Team_B" := by
  constructor <;> decide

/-- C6 (amended): with no name override, and feed identifiers free of
spaces (identifiers derive from environment-variable names), the derived
calendar name is "Events for " followed by the identifiers joined with
single spaces, each token title-cased as first character uppercased and
the whole remainder lowercased with no internal splitting on underscores:
"team_a" becomes "Team_a", and in particular "TEAM_A" becomes "Team_a". -/
theorem C6_derived_name (feeds : List String)
    (h : ∀ f ∈ feeds, ' ' ∉ f.data) :
    deriveCalendarName feeds none =
      "Events for " ++
        String.mk (joinWithChar ' ' ((feeds.map String.data).map titleCaseChars)) ∧
    titleCaseChars "team_a".data = "Team_a".data ∧
    titleCaseChars "TEAM_A".data = "Team_a".data := by
  refine ⟨?_, by decide, by decide⟩
  cases feeds with
  | nil => decide
  | cons a rest =>
      have hsplit : splitOnChar ' '
          (joinWithChar ' ' ((a :: rest).map String.data)) =
            (a :: rest).map String.data :=
        splitOnChar_joinWithChar (by simp)
          (fun w hw => by
            obtain ⟨f, hf, rfl⟩ := List.mem_map.mp hw
            exact h f hf)
      simp only [deriveCalendarName, defaultCalendarName, hsplit]

theorem C6_derived_name_witness :
    deriveCalendarName ["TEAM_A", "TEAM_B"] none =
      "Events for " ++
        String.mk (joinWithChar ' '
          ((["TEAM_A", "TEAM_B"].map String.data).map titleCaseChars)) :=
  (C6_derived_name ["TEAM_A", "TEAM_B"] (by decide)).1

/-- C9 counterexample: the directory body for a registry with the single
identifier TEAM_A is "- TEAM_A" — each line carries a dash-space prefix, so
the body is not just the identifier names. -/
theorem C9_counterexample :
    directoryBody [("TEAM_A", "key-a")] = "- TEAM_A" ∧
    directoryBody [("TEAM_A", "key-a")] ≠ "TEAM_A" := by
  constructor <;> decide

/-- C9 (amended): for a non-empty registry whose identifiers contain no
newline, the directory body splits on newlines into exactly one line per
configured identifier, in registry order, with no blank lines — but each
line is "- " followed by the identifier, not the bare identifier name. -/
theorem C9_directory_lines (registry : Registry) (hne : registry ≠ [])
    (hids : ∀ p ∈ registry, Char.ofNat 10 ∉ p.1.data) :
    splitOnChar (Char.ofNat 10) (directoryBody registry).data =
      registry.map (fun p => '-' :: ' ' :: p.1.data) ∧
    (splitOnChar (Char.ofNat 10) (directoryBody registry).data).length =
      registry.length ∧
    ∀ l ∈ splitOnChar (Char.ofNat 10) (directoryBody registry).data, l ≠ [] := by
  have hlines : (directoryLines registry).map String.data =
      registry.map (fun p => '-' :: ' ' :: p.1.data) := by
    simp only [directoryLines, List.map_map]
    refine List.map_congr_left (fun p _ => ?_)
    simp [String.data_append]
  have hsplit : splitOnChar (Char.ofNat 10) (directoryBody registry).data =
      registry.map (fun p => '-' :: ' ' :: p.1.data) := by
    have hdata : (directoryBody registry).data =
        joinWithChar (Char.ofNat 10) ((directoryLines registry).map String.data) := rfl
    rw [hdata, hlines]
    refine splitOnChar_joinWithChar (by simpa using hne) (fun w hw => ?_)
    obtain ⟨p, hp, rfl⟩ := List.mem_map.mp hw
    intro hmem
    rcases List.mem_cons.mp hmem with h1 | hmem
    · exact absurd h1 (by decide)
    rcases List.mem_cons.mp hmem with h2 | hmem
    · exact absurd h2 (by decide)
    exact hids p hp hmem
  refine ⟨hsplit, by rw [hsplit, List.length_map], fun l hl => ?_⟩
  rw [hsplit] at hl
  obtain ⟨p, _, rfl⟩ := List.mem_map.mp hl
  simp

/-- A registry with two configured feeds. -/
def regTwo : Registry := [("TEAM_A", "key-a"), ("TEAM_B", "key-b")]

theorem C9_directory_lines_witness :
    splitOnChar (Char.ofNat 10) (directoryBody regTwo).data =
      regTwo.map (fun p => '-' :: ' ' :: p.1.data) :=
  (C9_directory_lines regTwo (by decide) (by decide)).1

end ActionNetworkICal
